import Mathlib

/-!
# Timing-control primitives of `utils.js`, modelled in Lean

A shallow embedding of the three timing-control primitives of the
repository's `utils.js`:

* `debounce(ms)` — the plain timer debouncer (lines 6–12);
* `debounce2(func, ms)` — the coalescing, promise-returning debouncer
  (lines 49–79);
* `retryWithBackoff(action, options)` — the exponential-backoff retrier
  (lines 109–147).

The JavaScript event loop is modelled explicitly: `setTimeout` appends a
record (id, due time, payload) to a queue of pending timers and returns the
fresh id, `clearTimeout id` removes the pending timer with that id (a no-op
on `null` or on an id that already fired), and the scheduler fires every
pending timer that is due before the next external call, in order.  Calls to
a debounced function are given as a list of (time, argument) pairs; time is
`Nat`-valued milliseconds.  Promises are modelled as identifiers into a heap
`List (Nat × Option β)`: `none` is a pending promise, `some b` a promise
resolved with `b`.  The user-supplied action is a function into `Outcome β ε`:
`ok b` for a normal completion with value `b`, `err e` for a synchronous
throw or an eventual rejection with error `e`.  Delays in the retrier are
rational numbers and `Math.random()` is a per-attempt oracle `rand : Nat → ℚ`
assumed to draw from `[0, 1)`.
-/

namespace JsUtils

/-- Result of one run of a user-supplied action: either a value or a thrown
error / rejected promise. -/
inductive Outcome (β ε : Type) where
  | ok (val : β)
  | err (e : ε)
  deriving DecidableEq, Repr

/-- `some b` when the action completed with `b`, `none` when it failed
(`Promise.resolve(..).then(resolver)` forwards only fulfilments). -/
def Outcome.toOpt : Outcome β ε → Option β
  | .ok b => some b
  | .err _ => none

/-! ## `debounce(ms)` (utils.js lines 6–12) -/

/-- A pending timer registered by the plain debouncer: the handle returned by
`setTimeout`, the instant it is due, and the zero-argument callback `f`
(opaque, modelled as a value of type `γ`). -/
structure DebTimer (γ : Type) where
  tid : Nat
  fireAt : Nat
  cb : γ
  deriving DecidableEq, Repr

/-- State of one `debounce(ms)` instance together with its event loop:
the pending-timer queue, the closure variable `debounceTimer`, the fresh-id
counter, and the log of callbacks that have executed, tagged with the instant
at which they ran. -/
structure DebState (γ : Type) where
  timers : List (DebTimer γ)
  debounceTimer : Option Nat
  nextTid : Nat
  executed : List (Nat × γ)
  deriving DecidableEq, Repr

/-- Initial state: `let debounceTimer = null`, empty event loop. -/
def DebState.init (γ : Type) : DebState γ := ⟨[], none, 0, []⟩

/-- `clearTimeout(debounceTimer)`: removes the pending timer with that handle,
if any; a no-op when the variable is still `null` or the timer already fired. -/
def debClear (s : DebState γ) : DebState γ :=
  match s.debounceTimer with
  | none => s
  | some tid => { s with timers := s.timers.filter (fun tm => decide (tm.tid ≠ tid)) }

/-- A due timer fires: the event loop runs its callback (the callback body is
opaque, so we record which callback ran and when). -/
def debFire (s : DebState γ) (tm : DebTimer γ) : DebState γ :=
  { s with executed := s.executed ++ [(tm.fireAt, tm.cb)] }

/-- The event loop, advanced to time `t`: every pending timer due at or before
`t` is removed from the queue and fires, in queue order. -/
def debFireDue (t : Nat) (s : DebState γ) : DebState γ :=
  let due := s.timers.filter (fun tm => decide (tm.fireAt ≤ t))
  due.foldl debFire
    { s with timers := s.timers.filter (fun tm => decide (¬ tm.fireAt ≤ t)) }

/-- One call, at time `t` with callback `f`, to the trigger returned by
`debounce(ms)`: timers already due fire first (the event loop reaches the call
site), then `clearTimeout(debounceTimer)`, then
`debounceTimer = setTimeout(f, ms)`. -/
def debCall (ms : Nat) (s : DebState γ) (t : Nat) (f : γ) : DebState γ :=
  let s1 := debClear (debFireDue t s)
  { s1 with timers := s1.timers ++ [⟨s1.nextTid, t + ms, f⟩],
            debounceTimer := some s1.nextTid,
            nextTid := s1.nextTid + 1 }

/-- Process a sequence of trigger calls from a given state. -/
def debSteps (ms : Nat) (s : DebState γ) (calls : List (Nat × γ)) : DebState γ :=
  calls.foldl (fun s' p => debCall ms s' p.1 p.2) s

/-- Run one `debounce(ms)` instance over a whole call sequence, then let every
timer still pending fire. -/
def debRun (ms : Nat) (calls : List (Nat × γ)) : DebState γ :=
  let s := debSteps ms (DebState.init γ) calls
  s.timers.foldl debFire { s with timers := [] }

/-! ## `debounce2(func, ms)` (utils.js lines 49–79) -/

/-- A pending timer registered by `debounce2`: handle, due instant, and the
call arguments `args` captured by the `setTimeout` closure. -/
structure Timer2 (α : Type) where
  tid : Nat
  fireAt : Nat
  args : α
  deriving DecidableEq, Repr

/-- State of one `debounce2(func, ms)` instance together with its event loop.
`inflight` models the pair `inflightPromise` / `inflightResolver` (always set
and reset together in the source) as the identifier of the current session's
shared promise, or `none`.  `promises` is the promise heap (`none` = pending),
`invocations` logs the argument of each actual invocation of `func`, and
`returns` logs the promise identifier handed back by each call. -/
structure D2State (α β : Type) where
  timers : List (Timer2 α)
  timerId : Option Nat
  inflight : Option Nat
  nextTid : Nat
  nextPid : Nat
  promises : List (Nat × Option β)
  invocations : List α
  returns : List Nat
  deriving DecidableEq, Repr

/-- Initial state: `timerId = null`, `inflightPromise = null`,
`inflightResolver = null`, empty event loop. -/
def D2State.init (α β : Type) : D2State α β := ⟨[], none, none, 0, 0, [], [], []⟩

/-- `resolve(b)` on promise `pid`: settles it if it is still pending
(a promise settles at most once). -/
def resolveP (ps : List (Nat × Option β)) (pid : Nat) (b : β) : List (Nat × Option β) :=
  ps.map (fun pr =>
    match pr with
    | (i, none) => if i = pid then (i, some b) else (i, none)
    | (i, some v) => (i, some v))

/-- Body of the `setTimeout` callback of `debounce2` (utils.js lines 65–75):
save `inflightResolver` into `resolver`, reset `inflightPromise` and
`inflightResolver` to `null`, and, if a resolver was present, invoke `func`
with the captured arguments and forward a successful outcome to the resolver
via `Promise.resolve(func.apply(this, args)).then(resolver)`.  A failing
outcome is not forwarded anywhere. -/
def fireBody (action : α → Outcome β ε) (s : D2State α β) (a : α) : D2State α β :=
  let resolver := s.inflight
  let s1 := { s with inflight := none }
  match resolver with
  | none => s1
  | some pid =>
    let s2 := { s1 with invocations := s1.invocations ++ [a] }
    match action a with
    | .ok b => { s2 with promises := resolveP s2.promises pid b }
    | .err _ => s2

/-- `clearTimeout(timerId)` for the coalescing debouncer. -/
def d2Clear (s : D2State α β) : D2State α β :=
  match s.timerId with
  | none => s
  | some tid => { s with timers := s.timers.filter (fun tm => decide (tm.tid ≠ tid)) }

/-- The event loop, advanced to time `t`: every pending timer due at or before
`t` is removed from the queue and its `debounce2` callback body runs. -/
def d2FireDue (action : α → Outcome β ε) (t : Nat) (s : D2State α β) : D2State α β :=
  let due := s.timers.filter (fun tm => decide (tm.fireAt ≤ t))
  due.foldl (fun s' tm => fireBody action s' tm.args)
    { s with timers := s.timers.filter (fun tm => decide (¬ tm.fireAt ≤ t)) }

/-- One call, at time `t` with arguments `a`, to the function returned by
`debounce2(func, ms)` (utils.js lines 56–78): due timers fire first; then
`clearTimeout(timerId)`; then, if there is no in-flight promise, a fresh
pending promise and its resolver are created; then
`timerId = setTimeout(callbackBody, ms)` capturing this call's arguments; and
the in-flight promise is returned to the caller. -/
def d2Call (action : α → Outcome β ε) (ms : Nat) (s : D2State α β) (t : Nat) (a : α) :
    D2State α β :=
  let s2 := d2Clear (d2FireDue action t s)
  let s3 :=
    match s2.inflight with
    | some _ => s2
    | none => { s2 with promises := s2.promises ++ [(s2.nextPid, none)],
                        inflight := some s2.nextPid,
                        nextPid := s2.nextPid + 1 }
  { s3 with timers := s3.timers ++ [⟨s3.nextTid, t + ms, a⟩],
            timerId := some s3.nextTid,
            nextTid := s3.nextTid + 1,
            returns := s3.returns ++ [s3.inflight.getD 0] }

/-- Process a sequence of calls to the debounced function from a given state. -/
def d2Steps (action : α → Outcome β ε) (ms : Nat) (s : D2State α β)
    (calls : List (Nat × α)) : D2State α β :=
  calls.foldl (fun s' p => d2Call action ms s' p.1 p.2) s

/-- Run one `debounce2(func, ms)` instance over a whole call sequence, then
let every timer still pending fire. -/
def d2Run (action : α → Outcome β ε) (ms : Nat) (calls : List (Nat × α)) : D2State α β :=
  let s := d2Steps action ms (D2State.init α β) calls
  s.timers.foldl (fun s' tm => fireBody action s' tm.args) { s with timers := [] }

/-- A burst of debounced calls: call times are (weakly) increasing and every
call arrives strictly less than `ms` after the previous one. -/
def BurstCalls (ms : Nat) (cs : List (Nat × α)) : Prop :=
  List.Chain' (fun p q => p.1 ≤ q.1 ∧ q.1 < p.1 + ms) cs

/-! ## `retryWithBackoff(action, options)` (utils.js lines 109–147) -/

/-- The destructured options object of `retryWithBackoff`.  `maxRetries` is an
integer so that negative values (which make the `for` loop body unreachable)
are representable; the delay parameters are rationals. -/
structure RetryOptions where
  maxRetries : Int
  initialDelay : ℚ
  maxDelay : ℚ
  jitterFactor : ℚ
  deriving DecidableEq, Repr

/-- The defaults `{maxRetries = 3, initialDelay = 100, maxDelay = 10000,
jitterFactor = 0.3}`. -/
def defaultRetryOptions : RetryOptions := ⟨3, 100, 10000, 3 / 10⟩

/-- How one call to `retryWithBackoff` ends: a returned value, a thrown error
(`throw lastError`), or the post-loop
`Error("Retry failed without capturing an error.")`. -/
inductive RetryResult (β ε : Type) where
  | success (b : β)
  | failure (e : ε)
  | fallback
  deriving DecidableEq, Repr

/-- Observable trace of one call to `retryWithBackoff`: its final result, how
many times `action` was invoked, and the successive delays passed to `sleep`. -/
structure RetryTrace (β ε : Type) where
  result : RetryResult β ε
  invocations : Nat
  delays : List ℚ
  deriving DecidableEq, Repr

/-- `Math.min(initialDelay * 2 ** attempt, maxDelay)` (utils.js line 133). -/
def backoffDelay (o : RetryOptions) (attempt : Nat) : ℚ :=
  min (o.initialDelay * 2 ^ attempt) o.maxDelay

/-- Lines 133–139: raw exponential delay, symmetric jitter
`delay * jitterFactor * (Math.random() - 0.5) * 2` with `u` the drawn random
number, and the clamp `Math.max(0, delay + jitter)`. -/
def jitteredDelay (o : RetryOptions) (u : ℚ) (attempt : Nat) : ℚ :=
  let delay := backoffDelay o attempt
  let jitter := delay * o.jitterFactor * (u - 1 / 2) * 2
  max 0 (delay + jitter)

/-- The `for (let attempt = 0; attempt < maxRetries + 1; attempt++)` loop of
`retryWithBackoff`, lines 119–144, one constructor case per remaining loop
iteration.  `fuel` counts the iterations still allowed by the loop condition,
`lastError` is the variable of line 118, and `rand attempt` is the
`Math.random()` draw of that iteration.  Exhausted fuel is the post-loop
line 146: `throw lastError || new Error(...)`. -/
def retryGo (action : Nat → Outcome β ε) (rand : Nat → ℚ) (o : RetryOptions) :
    Nat → Nat → Option ε → RetryTrace β ε
  | _, 0, lastError =>
    ⟨match lastError with
      | some e => .failure e
      | none => .fallback, 0, []⟩
  | attempt, fuel + 1, _ =>
    match action attempt with
    | .ok b => ⟨.success b, 1, []⟩
    | .err e =>
      if (attempt : Int) = o.maxRetries then ⟨.failure e, 1, []⟩
      else
        let finalDelay := jitteredDelay o (rand attempt) attempt
        let t := retryGo action rand o (attempt + 1) fuel (some e)
        ⟨t.result, t.invocations + 1, finalDelay :: t.delays⟩

/-- `retryWithBackoff(action, options)`: run the loop from `attempt = 0` with
`lastError = null`; the loop condition `attempt < maxRetries + 1` allows
`(maxRetries + 1).toNat` iterations.  `action n` is the outcome of the `n`-th
invocation of the user action. -/
def retryWithBackoff (action : Nat → Outcome β ε) (rand : Nat → ℚ)
    (o : RetryOptions) : RetryTrace β ε :=
  retryGo action rand o 0 (o.maxRetries + 1).toNat none

/-! ## The state of a debouncer in the middle of a burst -/

/-- `debounce2` state in the middle of a burst of `n ≥ 1` calls whose most
recent call was at time `t` with arguments `a`: one pending timer (handle
`n - 1`, due at `t + ms`, holding `a`), one shared pending promise (id `0`)
returned to all `n` callers, and no invocation of `func` yet. -/
def midBurst (ms n t : Nat) (a : α) (β : Type) : D2State α β :=
  { timers := [⟨n - 1, t + ms, a⟩], timerId := some (n - 1), inflight := some 0,
    nextTid := n, nextPid := 1, promises := [(0, none)], invocations := [],
    returns := List.replicate n 0 }

lemma d2Call_init (action : α → Outcome β ε) (ms t : Nat) (a : α) :
    d2Call action ms (D2State.init α β) t a = midBurst ms 1 t a β := by
  simp [d2Call, d2FireDue, d2Clear, D2State.init, midBurst]

lemma d2Call_midBurst (action : α → Outcome β ε) (ms n tp t : Nat) (ap a : α)
    (ht : t < tp + ms) :
    d2Call action ms (midBurst ms n tp ap β) t a = midBurst ms (n + 1) t a β := by
  have h1 : ¬ (tp + ms ≤ t) := by omega
  simp [d2Call, d2FireDue, d2Clear, midBurst, h1, List.replicate_succ']

lemma d2Steps_burst (action : α → Outcome β ε) (ms : Nat) :
    ∀ (cs : List (Nat × α)) (t : Nat) (a : α),
      BurstCalls ms (cs ++ [(t, a)]) →
      d2Steps action ms (D2State.init α β) (cs ++ [(t, a)]) =
        midBurst ms (cs.length + 1) t a β := by
  intro cs
  induction cs using List.reverseRecOn with
  | nil =>
    intro t a _
    simpa [d2Steps] using d2Call_init action ms t a (β := β)
  | append_singleton l p ih =>
    intro t a hb
    obtain ⟨h1, _, h3⟩ := List.chain'_append.1 hb
    have hR := h3 p (by simp) (t, a) (by simp)
    have hrw : d2Steps action ms (D2State.init α β) ((l ++ [p]) ++ [(t, a)]) =
        d2Call action ms (d2Steps action ms (D2State.init α β) (l ++ [p])) t a := by
      simp [d2Steps, List.foldl_append]
    rw [hrw, ih p.1 p.2 h1, d2Call_midBurst action ms (l.length + 1) p.1 t p.2 a hR.2]
    simp

/-- Firing the single pending timer of a mid-burst state: the resolver is
taken, the session is detached, `func` runs once on the last captured
arguments, and only a successful outcome reaches the shared promise. -/
lemma d2Flush_midBurst (action : α → Outcome β ε) (ms n t : Nat) (a : α) :
    ((midBurst ms n t a β).timers.foldl (fun s' tm => fireBody action s' tm.args)
        { midBurst ms n t a β with timers := [] }) =
      { timers := [], timerId := some (n - 1), inflight := none, nextTid := n,
        nextPid := 1, promises := [(0, (action a).toOpt)], invocations := [a],
        returns := List.replicate n 0 } := by
  cases ha : action a <;>
    simp [midBurst, fireBody, resolveP, Outcome.toOpt, ha]

/-- Complete run of a nonempty burst: the final state of `debounce2`. -/
lemma d2Run_burst (action : α → Outcome β ε) (ms : Nat) (cs : List (Nat × α))
    (t : Nat) (a : α) (hb : BurstCalls ms (cs ++ [(t, a)])) :
    d2Run action ms (cs ++ [(t, a)]) =
      { timers := [], timerId := some cs.length, inflight := none,
        nextTid := cs.length + 1, nextPid := 1,
        promises := [(0, (action a).toOpt)], invocations := [a],
        returns := List.replicate (cs.length + 1) 0 } := by
  unfold d2Run
  rw [d2Steps_burst action ms cs t a hb]
  simpa using d2Flush_midBurst action ms (cs.length + 1) t a (β := β)

/-! ## Failure swallowing: only `ok` outcomes reach the resolver -/

/-- Every promise in the heap is still pending. -/
def AllPending (ps : List (Nat × Option β)) : Prop := ∀ pr ∈ ps, pr.2 = none

lemma fireBody_promises_of_err (action : α → Outcome β ε)
    (hf : ∀ x, ∃ e, action x = Outcome.err e) (s : D2State α β) (a : α) :
    (fireBody action s a).promises = s.promises := by
  obtain ⟨e, he⟩ := hf a
  cases hi : s.inflight <;> simp [fireBody, hi, he]

lemma foldl_fireBody_promises (action : α → Outcome β ε)
    (hf : ∀ x, ∃ e, action x = Outcome.err e) :
    ∀ (l : List (Timer2 α)) (s : D2State α β),
      (l.foldl (fun s' tm => fireBody action s' tm.args) s).promises = s.promises := by
  intro l
  induction l with
  | nil => intro s; rfl
  | cons tm l ih =>
    intro s
    rw [List.foldl_cons, ih, fireBody_promises_of_err action hf]

lemma d2Clear_promises (s : D2State α β) : (d2Clear s).promises = s.promises := by
  unfold d2Clear; cases s.timerId <;> simp

lemma d2FireDue_promises (action : α → Outcome β ε)
    (hf : ∀ x, ∃ e, action x = Outcome.err e) (t : Nat) (s : D2State α β) :
    (d2FireDue action t s).promises = s.promises := by
  unfold d2FireDue
  rw [foldl_fireBody_promises action hf]

lemma d2Call_allPending (action : α → Outcome β ε)
    (hf : ∀ x, ∃ e, action x = Outcome.err e) (ms : Nat) (s : D2State α β)
    (t : Nat) (a : α) (h : AllPending s.promises) :
    AllPending (d2Call action ms s t a).promises := by
  have hpre : (d2Clear (d2FireDue action t s)).promises = s.promises := by
    rw [d2Clear_promises, d2FireDue_promises action hf]
  unfold d2Call
  cases hi : (d2Clear (d2FireDue action t s)).inflight with
  | some pid =>
    simp only [hi]
    intro pr hpr
    exact h pr (by rw [hpre] at hpr; exact hpr)
  | none =>
    simp only [hi]
    intro pr hpr
    simp only [hpre] at hpr
    rcases List.mem_append.1 hpr with hold | hnew
    · exact h pr hold
    · simp at hnew; rw [hnew]

lemma d2Steps_allPending (action : α → Outcome β ε)
    (hf : ∀ x, ∃ e, action x = Outcome.err e) (ms : Nat) :
    ∀ (calls : List (Nat × α)) (s : D2State α β),
      AllPending s.promises → AllPending (d2Steps action ms s calls).promises := by
  intro calls
  induction calls with
  | nil => intro s h; exact h
  | cons p calls ih =>
    intro s h
    exact ih (d2Call action ms s p.1 p.2) (d2Call_allPending action hf ms s p.1 p.2 h)

/-! ## Session isolation: two calls separated by more than `ms` -/

/-- Two calls with a gap of at least `ms` are two independent sessions: two
promises (ids `0` and `1`), two invocations of `func`, each promise settled
(or left pending) by its own invocation's outcome. -/
lemma d2Run_two_sessions (action : α → Outcome β ε) (ms t1 t2 : Nat) (a1 a2 : α)
    (h : t1 + ms ≤ t2) :
    d2Run action ms [(t1, a1), (t2, a2)] =
      { timers := [], timerId := some 1, inflight := none, nextTid := 2, nextPid := 2,
        promises := [(0, (action a1).toOpt), (1, (action a2).toOpt)],
        invocations := [a1, a2], returns := [0, 1] } := by
  cases ha1 : action a1 <;> cases ha2 : action a2 <;>
    simp [d2Run, d2Steps, d2Call, d2FireDue, d2Clear, D2State.init, fireBody,
          resolveP, Outcome.toOpt, ha1, ha2, h]

/-! ## The plain debouncer on a burst -/

/-- `debounce(ms)` state in the middle of a burst of `n ≥ 1` trigger calls
whose most recent call was at time `t` with callback `f`. -/
def midDeb (ms n t : Nat) (f : γ) : DebState γ :=
  { timers := [⟨n - 1, t + ms, f⟩], debounceTimer := some (n - 1), nextTid := n,
    executed := [] }

lemma debCall_init (ms t : Nat) (f : γ) :
    debCall ms (DebState.init γ) t f = midDeb ms 1 t f := by
  simp [debCall, debFireDue, debClear, DebState.init, midDeb]

lemma debCall_midDeb (ms n tp t : Nat) (fp f : γ) (ht : t < tp + ms) :
    debCall ms (midDeb ms n tp fp) t f = midDeb ms (n + 1) t f := by
  have h1 : ¬ (tp + ms ≤ t) := by omega
  simp [debCall, debFireDue, debClear, midDeb, debFire, h1]

lemma debSteps_burst (ms : Nat) :
    ∀ (cs : List (Nat × γ)) (t : Nat) (f : γ),
      BurstCalls ms (cs ++ [(t, f)]) →
      debSteps ms (DebState.init γ) (cs ++ [(t, f)]) = midDeb ms (cs.length + 1) t f := by
  intro cs
  induction cs using List.reverseRecOn with
  | nil =>
    intro t f _
    simpa [debSteps] using debCall_init ms t f (γ := γ)
  | append_singleton l p ih =>
    intro t f hb
    obtain ⟨h1, _, h3⟩ := List.chain'_append.1 hb
    have hR := h3 p (by simp) (t, f) (by simp)
    have hrw : debSteps ms (DebState.init γ) ((l ++ [p]) ++ [(t, f)]) =
        debCall ms (debSteps ms (DebState.init γ) (l ++ [p])) t f := by
      simp [debSteps, List.foldl_append]
    rw [hrw, ih p.1 p.2 h1, debCall_midDeb ms (l.length + 1) p.1 t p.2 f hR.2]
    simp

/-! ## At most one pending timer per debouncer instance -/

/-- The pending-timer queue of a plain-debouncer instance holds at most one
timer, and the one that is pending is the one `debounceTimer` refers to. -/
def DebOneTimer (s : DebState γ) : Prop :=
  s.timers = [] ∨ ∃ tm, s.timers = [tm] ∧ s.debounceTimer = some tm.tid

/-- Likewise for `debounce2`. -/
def D2OneTimer (s : D2State α β) : Prop :=
  s.timers = [] ∨ ∃ tm, s.timers = [tm] ∧ s.timerId = some tm.tid

lemma foldl_debFire_fields :
    ∀ (l : List (DebTimer γ)) (s : DebState γ),
      (l.foldl debFire s).timers = s.timers ∧
      (l.foldl debFire s).debounceTimer = s.debounceTimer := by
  intro l
  induction l with
  | nil => intro s; exact ⟨rfl, rfl⟩
  | cons tm l ih =>
    intro s
    rw [List.foldl_cons]
    exact ⟨((ih _).1), ((ih _).2)⟩

lemma fireBody_fields (action : α → Outcome β ε) (s : D2State α β) (a : α) :
    (fireBody action s a).timers = s.timers ∧
    (fireBody action s a).timerId = s.timerId := by
  cases hi : s.inflight <;> cases ha : action a <;> simp [fireBody, hi, ha]

lemma foldl_fireBody_fields (action : α → Outcome β ε) :
    ∀ (l : List (Timer2 α)) (s : D2State α β),
      (l.foldl (fun s' tm => fireBody action s' tm.args) s).timers = s.timers ∧
      (l.foldl (fun s' tm => fireBody action s' tm.args) s).timerId = s.timerId := by
  intro l
  induction l with
  | nil => intro s; exact ⟨rfl, rfl⟩
  | cons tm l ih =>
    intro s
    rw [List.foldl_cons]
    refine ⟨?_, ?_⟩
    · rw [(ih _).1, (fireBody_fields action s tm.args).1]
    · rw [(ih _).2, (fireBody_fields action s tm.args).2]

lemma debClear_fireDue_timers (t : Nat) (s : DebState γ) (h : DebOneTimer s) :
    (debClear (debFireDue t s)).timers = [] := by
  have hfd : (debFireDue t s).timers = s.timers.filter (fun tm => decide (¬ tm.fireAt ≤ t)) := by
    unfold debFireDue
    exact (foldl_debFire_fields _ _).1
  have hfd2 : (debFireDue t s).debounceTimer = s.debounceTimer := by
    unfold debFireDue
    exact (foldl_debFire_fields _ _).2
  rcases h with h0 | ⟨tm, htm, hid⟩
  · unfold debClear
    rw [hfd2]
    cases hdt : s.debounceTimer <;> simp [hfd, h0, hdt]
  · unfold debClear
    rw [hfd2, hid]
    simp only [hfd, htm]
    by_cases hp : tm.fireAt ≤ t <;> simp [hp]

lemma debCall_oneTimer (ms : Nat) (s : DebState γ) (t : Nat) (f : γ)
    (h : DebOneTimer s) : DebOneTimer (debCall ms s t f) := by
  have htimers := debClear_fireDue_timers t s h
  right
  refine ⟨⟨(debClear (debFireDue t s)).nextTid, t + ms, f⟩, ?_, ?_⟩ <;>
    simp [debCall, htimers]

lemma debSteps_oneTimer (ms : Nat) :
    ∀ (calls : List (Nat × γ)) (s : DebState γ),
      DebOneTimer s → DebOneTimer (debSteps ms s calls) := by
  intro calls
  induction calls with
  | nil => intro s h; exact h
  | cons p calls ih =>
    intro s h
    exact ih (debCall ms s p.1 p.2) (debCall_oneTimer ms s p.1 p.2 h)

lemma d2Clear_fireDue_timers (action : α → Outcome β ε) (t : Nat) (s : D2State α β)
    (h : D2OneTimer s) : (d2Clear (d2FireDue action t s)).timers = [] := by
  have hfd : (d2FireDue action t s).timers =
      s.timers.filter (fun tm => decide (¬ tm.fireAt ≤ t)) := by
    unfold d2FireDue
    exact (foldl_fireBody_fields action _ _).1
  have hfd2 : (d2FireDue action t s).timerId = s.timerId := by
    unfold d2FireDue
    exact (foldl_fireBody_fields action _ _).2
  rcases h with h0 | ⟨tm, htm, hid⟩
  · unfold d2Clear
    rw [hfd2]
    cases hdt : s.timerId <;> simp [hfd, h0, hdt]
  · unfold d2Clear
    rw [hfd2, hid]
    simp only [hfd, htm]
    by_cases hp : tm.fireAt ≤ t <;> simp [hp]

lemma d2Call_oneTimer (action : α → Outcome β ε) (ms : Nat) (s : D2State α β)
    (t : Nat) (a : α) (h : D2OneTimer s) : D2OneTimer (d2Call action ms s t a) := by
  have htimers := d2Clear_fireDue_timers action t s h
  right
  refine ⟨⟨(d2Clear (d2FireDue action t s)).nextTid, t + ms, a⟩, ?_, ?_⟩ <;>
    · unfold d2Call
      cases hi : (d2Clear (d2FireDue action t s)).inflight <;> simp [hi, htimers]

lemma d2Steps_oneTimer (action : α → Outcome β ε) (ms : Nat) :
    ∀ (calls : List (Nat × α)) (s : D2State α β),
      D2OneTimer s → D2OneTimer (d2Steps action ms s calls) := by
  intro calls
  induction calls with
  | nil => intro s h; exact h
  | cons p calls ih =>
    intro s h
    exact ih (d2Call action ms s p.1 p.2) (d2Call_oneTimer action ms s p.1 p.2 h)

/-! ## Retrier lemmas -/

lemma retryGo_allFail (action : Nat → Outcome β ε) (rand : Nat → ℚ) (o : RetryOptions)
    (es : Nat → ε) (hf : ∀ n, action n = Outcome.err (es n)) (r : Nat)
    (ho : o.maxRetries = (r : Int)) :
    ∀ (fuel attempt : Nat) (le : Option ε), attempt + fuel = r + 1 → 0 < fuel →
      (retryGo action rand o attempt fuel le).result = RetryResult.failure (es r) ∧
      (retryGo action rand o attempt fuel le).invocations = fuel := by
  intro fuel
  induction fuel with
  | zero => intro attempt le hsum hpos; omega
  | succ f ih =>
    intro attempt le hsum _
    by_cases hat : (attempt : Int) = o.maxRetries
    · have har : attempt = r := by rw [ho] at hat; exact_mod_cast hat
      have hf0 : f = 0 := by omega
      subst har hf0
      simp [retryGo, hf attempt, hat]
    · have har : attempt ≠ r := fun hc => hat (by rw [ho, hc])
      have hfpos : 0 < f := by omega
      have := ih (attempt + 1) (some (es attempt)) (by omega) hfpos
      simp only [retryGo, hf attempt, if_neg hat]
      exact ⟨this.1, by rw [this.2]⟩

lemma retryGo_firstSuccess (action : Nat → Outcome β ε) (rand : Nat → ℚ)
    (o : RetryOptions) (k r : Nat) (b : β) (hk : k ≤ r) (ho : o.maxRetries = (r : Int))
    (hs : action k = Outcome.ok b) (hf : ∀ i, i < k → ∃ e, action i = Outcome.err e) :
    ∀ (fuel attempt : Nat) (le : Option ε), attempt + fuel = r + 1 → attempt ≤ k →
      (retryGo action rand o attempt fuel le).result = RetryResult.success b ∧
      (retryGo action rand o attempt fuel le).invocations = k - attempt + 1 ∧
      (retryGo action rand o attempt fuel le).delays.length = k - attempt := by
  intro fuel
  induction fuel with
  | zero => intro attempt le hsum hak; omega
  | succ f ih =>
    intro attempt le hsum hak
    by_cases hek : attempt = k
    · subst hek
      simp [retryGo, hs]
    · have hlt : attempt < k := lt_of_le_of_ne hak hek
      obtain ⟨e, he⟩ := hf attempt hlt
      have hat : ¬ ((attempt : Int) = o.maxRetries) := by
        rw [ho]
        intro hc
        have : attempt = r := by exact_mod_cast hc
        omega
      have := ih (attempt + 1) (some e) (by omega) (by omega)
      simp only [retryGo, he, if_neg hat]
      refine ⟨this.1, ?_, ?_⟩
      · rw [this.2.1]; omega
      · simp only [List.length_cons]
        rw [this.2.2]; omega

lemma retryGo_delays_get (action : Nat → Outcome β ε) (rand : Nat → ℚ)
    (o : RetryOptions) :
    ∀ (fuel attempt : Nat) (le : Option ε) (i : Nat),
      i < (retryGo action rand o attempt fuel le).delays.length →
      (retryGo action rand o attempt fuel le).delays[i]? =
        some (jitteredDelay o (rand (attempt + i)) (attempt + i)) := by
  intro fuel
  induction fuel with
  | zero => intro attempt le i hi; simp [retryGo] at hi
  | succ f ih =>
    intro attempt le i hi
    rcases ha : action attempt with b | e
    · simp [retryGo, ha] at hi
    · by_cases hat : (attempt : Int) = o.maxRetries
      · simp [retryGo, ha, hat] at hi
      · simp only [retryGo, ha, if_neg hat] at hi ⊢
        cases i with
        | zero => simp
        | succ j =>
          simp only [List.getElem?_cons_succ]
          have hj : j < (retryGo action rand o (attempt + 1) f (some e)).delays.length := by
            simpa using hi
          have := ih (attempt + 1) (some e) j hj
          rw [this, show attempt + 1 + j = attempt + (j + 1) from by omega]

lemma retryGo_ne_fallback (action : Nat → Outcome β ε) (rand : Nat → ℚ)
    (o : RetryOptions) :
    ∀ (fuel attempt : Nat) (le : Option ε),
      (attempt : Int) + (fuel : Int) = o.maxRetries + 1 → 0 < fuel →
      (retryGo action rand o attempt fuel le).result ≠ RetryResult.fallback := by
  intro fuel
  induction fuel with
  | zero => intro attempt le hsum hpos; omega
  | succ f ih =>
    intro attempt le hsum _
    rcases ha : action attempt with b | e
    · simp [retryGo, ha]
    · by_cases hat : (attempt : Int) = o.maxRetries
      · simp [retryGo, ha, hat]
      · have hfpos : 0 < f := by omega
        simp only [retryGo, ha, if_neg hat]
        exact ih (attempt + 1) (some e) (by push_cast; push_cast at hsum; omega) hfpos

lemma backoffDelay_nonneg (o : RetryOptions) (hid : 0 ≤ o.initialDelay)
    (hmd : 0 ≤ o.maxDelay) (attempt : Nat) : 0 ≤ backoffDelay o attempt :=
  le_min (mul_nonneg hid (by positivity)) hmd

/-- The jittered delay of a retried attempt lies within
`[max 0 (d - jitterFactor * d), d + jitterFactor * d]` around the capped
exponential delay `d`, for any random draw in `[0, 1)`. -/
lemma jitteredDelay_bounds (o : RetryOptions) (u : ℚ) (attempt : Nat)
    (hjf : 0 ≤ o.jitterFactor) (hd : 0 ≤ backoffDelay o attempt)
    (hu0 : 0 ≤ u) (hu1 : u < 1) :
    max 0 (backoffDelay o attempt - o.jitterFactor * backoffDelay o attempt)
        ≤ jitteredDelay o u attempt ∧
    jitteredDelay o u attempt
        ≤ backoffDelay o attempt + o.jitterFactor * backoffDelay o attempt := by
  unfold jitteredDelay
  constructor
  · refine max_le_max le_rfl ?_
    nlinarith [mul_nonneg (mul_nonneg hd hjf) hu0]
  · refine max_le ?_ ?_
    · nlinarith
    · nlinarith [mul_nonneg (mul_nonneg hd hjf) (by linarith : (0 : ℚ) ≤ 1 - u)]

/-! ## Claim theorems -/

/-- C1 (amended): for any burst of `N ≥ 1` calls to the function returned by
`debounce2(action, ms)`, each call strictly less than `ms` after the previous,
the underlying action is invoked exactly once, with the arguments of the last
call of the burst; every one of the `N` calls returns the very same promise
(id `0`); and when that single invocation succeeds, the shared promise settles
exactly once, with its result — when it fails, the shared promise never
settles, since only successful outcomes are forwarded to the resolver. -/
theorem debounce2_burst_single_invocation {α β ε : Type} (action : α → Outcome β ε)
    (ms : Nat) (cs : List (Nat × α)) (t : Nat) (a : α)
    (hb : BurstCalls ms (cs ++ [(t, a)])) :
    (d2Run action ms (cs ++ [(t, a)])).invocations = [a] ∧
    (d2Run action ms (cs ++ [(t, a)])).returns = List.replicate (cs.length + 1) 0 ∧
    (∀ b, action a = Outcome.ok b →
      (d2Run action ms (cs ++ [(t, a)])).promises = [(0, some b)]) ∧
    (∀ e, action a = Outcome.err e →
      (d2Run action ms (cs ++ [(t, a)])).promises = [(0, none)]) := by
  rw [d2Run_burst action ms cs t a hb]
  refine ⟨rfl, rfl, ?_, ?_⟩
  · intro b hab; simp [Outcome.toOpt, hab]
  · intro e hae; simp [Outcome.toOpt, hae]

/-- C1 counterexample: a one-call burst (`N = 1`, `ms = 5`) whose action
fails. The action is invoked once, with the burst's argument, but the promise
handed to the caller is still pending (`none`) after the timer fired and the
run completed: it does not settle with the invocation's outcome, contrary to
the claim's unconditional settles-exactly-once guarantee. -/
theorem debounce2_burst_single_invocation_cex :
    (d2Run (fun _ : Nat => (Outcome.err 0 : Outcome Nat Nat)) 5 [(0, 7)]).invocations
      = [7] ∧
    (d2Run (fun _ : Nat => (Outcome.err 0 : Outcome Nat Nat)) 5 [(0, 7)]).promises
      = [(0, none)] := by
  decide

/-- Witness for C1 at a concrete burst: `ms = 50`, calls with arguments
`1, 2, 3` at times 0, 10, 20; the action multiplies by 10 and succeeds. -/
theorem debounce2_burst_single_invocation_witness :
    (d2Run (fun n : Nat => (Outcome.ok (n * 10) : Outcome Nat Unit)) 50
        ([(0, 1), (10, 2)] ++ [(20, 3)])).invocations = [3] ∧
    (d2Run (fun n : Nat => (Outcome.ok (n * 10) : Outcome Nat Unit)) 50
        ([(0, 1), (10, 2)] ++ [(20, 3)])).promises = [(0, some 30)] := by
  have hb : BurstCalls 50 ([((0 : Nat), (1 : Nat)), (10, 2)] ++ [(20, 3)]) := by
    norm_num [BurstCalls, List.chain'_cons]
  exact ⟨(debounce2_burst_single_invocation _ 50 [(0, 1), (10, 2)] 20 3 hb).1,
    (debounce2_burst_single_invocation _ 50 [(0, 1), (10, 2)] 20 3 hb).2.2.1 30 rfl⟩

/-- C2: when the scheduled timer of `debounce2` fires and the underlying
action fails, the failure is not propagated to any caller's promise: with an
action that fails on every argument, every promise created across an
arbitrary call sequence is still pending after every timer has fired — the
shared promise neither resolves nor rejects, because only successful results
are forwarded to the stored resolver. -/
theorem debounce2_swallowed_failure {α β ε : Type} (action : α → Outcome β ε)
    (hf : ∀ x, ∃ e, action x = Outcome.err e) (ms : Nat) (calls : List (Nat × α)) :
    AllPending (d2Run action ms calls).promises := by
  intro pr hpr
  have hrun : (d2Run action ms calls).promises =
      (d2Steps action ms (D2State.init α β) calls).promises := by
    unfold d2Run
    exact foldl_fireBody_promises action hf _ _
  rw [hrun] at hpr
  exact d2Steps_allPending action hf ms calls (D2State.init α β)
    (by intro q hq; simp [D2State.init] at hq) pr hpr

/-- Witness for C2: a two-call burst (`ms = 5`) against an action that always
fails with error `3`. -/
theorem debounce2_swallowed_failure_witness :
    AllPending (d2Run (fun _ : Nat => (Outcome.err 3 : Outcome Nat Nat)) 5
        [(0, 1), (2, 4)]).promises :=
  debounce2_swallowed_failure _ (fun _ => ⟨3, rfl⟩) 5 [(0, 1), (2, 4)]

/-- C3: for every `maxRetries = r ≥ 0`, an action that fails on every attempt
is invoked exactly `r + 1` times and the call rejects with exactly the error
raised by the final attempt (`es r`); errors of earlier attempts are not
surfaced. -/
theorem retryWithBackoff_exhaustion {β ε : Type} (action : Nat → Outcome β ε)
    (rand : Nat → ℚ) (o : RetryOptions) (es : Nat → ε)
    (hf : ∀ n, action n = Outcome.err (es n)) (r : Nat)
    (ho : o.maxRetries = (r : Int)) :
    (retryWithBackoff action rand o).result = RetryResult.failure (es r) ∧
    (retryWithBackoff action rand o).invocations = r + 1 := by
  have hfuel : (o.maxRetries + 1).toNat = r + 1 := by rw [ho]; omega
  unfold retryWithBackoff
  rw [hfuel]
  exact retryGo_allFail action rand o es hf r ho (r + 1) 0 none (by omega) (by omega)

/-- Witness for C3: `maxRetries = 2`, action failing every attempt with its
attempt index as the error: three invocations, final error `2`. -/
theorem retryWithBackoff_exhaustion_witness :
    (retryWithBackoff (fun n => (Outcome.err n : Outcome Nat Nat)) (fun _ => 0)
        ⟨2, 100, 10000, 0⟩).result = RetryResult.failure 2 ∧
    (retryWithBackoff (fun n => (Outcome.err n : Outcome Nat Nat)) (fun _ => 0)
        ⟨2, 100, 10000, 0⟩).invocations = 2 + 1 :=
  retryWithBackoff_exhaustion _ _ _ (fun n => n) (fun _ => rfl) 2 rfl

/-- C4: if the action fails on attempts `0 .. k-1` and succeeds on attempt
`k ≤ maxRetries`, then exactly `k + 1` invocations occur, the successful
attempt's result is returned, and exactly `k` backoff delays are awaited —
none after the successful attempt. -/
theorem retryWithBackoff_success_short_circuits {β ε : Type}
    (action : Nat → Outcome β ε) (rand : Nat → ℚ) (o : RetryOptions)
    (k r : Nat) (b : β) (hk : k ≤ r) (ho : o.maxRetries = (r : Int))
    (hs : action k = Outcome.ok b)
    (hf : ∀ i, i < k → ∃ e, action i = Outcome.err e) :
    (retryWithBackoff action rand o).result = RetryResult.success b ∧
    (retryWithBackoff action rand o).invocations = k + 1 ∧
    (retryWithBackoff action rand o).delays.length = k := by
  have hfuel : (o.maxRetries + 1).toNat = r + 1 := by rw [ho]; omega
  unfold retryWithBackoff
  rw [hfuel]
  have := retryGo_firstSuccess action rand o k r b hk ho hs hf (r + 1) 0 none
    (by omega) (by omega)
  simpa using this

/-- Witness for C4: `maxRetries = 3`, one failure then success with `5`:
two invocations, one awaited delay. -/
theorem retryWithBackoff_success_short_circuits_witness :
    (retryWithBackoff
        (fun n => if n < 1 then (Outcome.err 9 : Outcome Nat Nat) else Outcome.ok 5)
        (fun _ => 0) ⟨3, 100, 10000, 0⟩).result = RetryResult.success 5 ∧
    (retryWithBackoff
        (fun n => if n < 1 then (Outcome.err 9 : Outcome Nat Nat) else Outcome.ok 5)
        (fun _ => 0) ⟨3, 100, 10000, 0⟩).invocations = 1 + 1 ∧
    (retryWithBackoff
        (fun n => if n < 1 then (Outcome.err 9 : Outcome Nat Nat) else Outcome.ok 5)
        (fun _ => 0) ⟨3, 100, 10000, 0⟩).delays.length = 1 :=
  retryWithBackoff_success_short_circuits _ _ _ 1 3 5 (by norm_num) rfl
    (by norm_num) (fun i hi => ⟨9, by have h0 : i = 0 := by omega
                                      subst h0
                                      norm_num⟩)

/-- C5: for every retried attempt index `a`, the pre-jitter delay is
`min(initialDelay * 2 ^ a, maxDelay) = d` and the awaited delay lies within
`[max 0 (d - jitterFactor * d), d + jitterFactor * d]` whenever the random
draws are in `[0, 1)`; concretely, with `maxRetries = 2, initialDelay = 100,
maxDelay = 10000, jitterFactor = 0` and an action failing twice then
succeeding with `"ok"`, there are three invocations, the awaited delays are
exactly 100 then 200, and the result is `"ok"`. -/
theorem retryWithBackoff_delay_bounds :
    (∀ {β ε : Type} (action : Nat → Outcome β ε) (rand : Nat → ℚ)
      (o : RetryOptions),
      0 ≤ o.jitterFactor → 0 ≤ o.initialDelay → 0 ≤ o.maxDelay →
      (∀ n, 0 ≤ rand n ∧ rand n < 1) →
      ∀ i, i < (retryWithBackoff action rand o).delays.length →
        max 0 (min (o.initialDelay * 2 ^ i) o.maxDelay
            - o.jitterFactor * min (o.initialDelay * 2 ^ i) o.maxDelay)
          ≤ (retryWithBackoff action rand o).delays.getD i 0 ∧
        (retryWithBackoff action rand o).delays.getD i 0
          ≤ min (o.initialDelay * 2 ^ i) o.maxDelay
            + o.jitterFactor * min (o.initialDelay * 2 ^ i) o.maxDelay) ∧
    retryWithBackoff
        (fun n => if n < 2 then (Outcome.err 0 : Outcome String Nat)
                  else Outcome.ok "ok")
        (fun _ => 0) ⟨2, 100, 10000, 0⟩
      = ⟨RetryResult.success "ok", 3, [100, 200]⟩ := by
  constructor
  · intro β ε action rand o hjf hid hmd hr i hi
    unfold retryWithBackoff at hi ⊢
    have hget := retryGo_delays_get action rand o (o.maxRetries + 1).toNat 0 none i hi
    simp only [Nat.zero_add] at hget
    have hgetD : (retryGo action rand o 0 (o.maxRetries + 1).toNat none).delays.getD i 0
        = jitteredDelay o (rand i) i := by
      rw [List.getD_eq_getElem?_getD, hget]
      rfl
    rw [hgetD]
    exact jitteredDelay_bounds o (rand i) i hjf (backoffDelay_nonneg o hid hmd i)
      (hr i).1 (hr i).2
  · norm_num [retryWithBackoff, retryGo, jitteredDelay, backoffDelay]

/-- Witness for C5's general bound: `maxRetries = 1, initialDelay = 100,
maxDelay = 10000, jitterFactor = 1/2`, random draw `1/4`; the single awaited
delay (75) lies within `[50, 150]`. -/
theorem retryWithBackoff_delay_bounds_witness :
    max 0 (min ((100 : ℚ) * 2 ^ 0) 10000 - (1 / 2) * min ((100 : ℚ) * 2 ^ 0) 10000)
        ≤ (retryWithBackoff (fun _ => (Outcome.err 0 : Outcome Nat Nat))
            (fun _ => 1 / 4) ⟨1, 100, 10000, 1 / 2⟩).delays.getD 0 0 ∧
    (retryWithBackoff (fun _ => (Outcome.err 0 : Outcome Nat Nat))
        (fun _ => 1 / 4) ⟨1, 100, 10000, 1 / 2⟩).delays.getD 0 0
      ≤ min ((100 : ℚ) * 2 ^ 0) 10000 + (1 / 2) * min ((100 : ℚ) * 2 ^ 0) 10000 :=
  retryWithBackoff_delay_bounds.1 (fun _ => (Outcome.err 0 : Outcome Nat Nat))
    (fun _ => (1 / 4 : ℚ)) ⟨1, 100, 10000, 1 / 2⟩ (by norm_num) (by norm_num)
    (by norm_num) (fun n => ⟨by norm_num, by norm_num⟩) 0
    (by norm_num [retryWithBackoff, retryGo, jitteredDelay, backoffDelay])

/-- C6: the timer callback of `debounce2` detaches the shared promise and its
resolver (resets them to null) before the action is invoked — after the
callback body the instance holds no in-flight promise — so a call arriving
after the firing starts a fresh session; in particular two calls separated by
more than `ms` of silence receive distinct promises (ids 0 and 1) and cause
two independent invocations of the action, each settling (or not) its own
session's promise. -/
theorem debounce2_session_isolation {α β ε : Type} (action : α → Outcome β ε) :
    (∀ (s : D2State α β) (a : α), (fireBody action s a).inflight = none) ∧
    (∀ (ms t1 t2 : Nat) (a1 a2 : α), t1 + ms < t2 →
      (d2Run action ms [(t1, a1), (t2, a2)]).returns = [0, 1] ∧
      (d2Run action ms [(t1, a1), (t2, a2)]).invocations = [a1, a2] ∧
      (d2Run action ms [(t1, a1), (t2, a2)]).promises
        = [(0, (action a1).toOpt), (1, (action a2).toOpt)]) := by
  constructor
  · intro s a
    cases hi : s.inflight <;> cases ha : action a <;> simp [fireBody, hi, ha]
  · intro ms t1 t2 a1 a2 h
    rw [d2Run_two_sessions action ms t1 t2 a1 a2 (by omega)]
    exact ⟨rfl, rfl, rfl⟩

/-- Witness for C6: `ms = 5`, two calls at times 0 and 6. -/
theorem debounce2_session_isolation_witness :
    (d2Run (fun n : Nat => (Outcome.ok (n + 1) : Outcome Nat Unit)) 5
        [(0, 10), (6, 20)]).returns = [0, 1] ∧
    (d2Run (fun n : Nat => (Outcome.ok (n + 1) : Outcome Nat Unit)) 5
        [(0, 10), (6, 20)]).invocations = [10, 20] :=
  ⟨((debounce2_session_isolation _).2 5 0 6 10 20 (by norm_num)).1,
   ((debounce2_session_isolation _).2 5 0 6 10 20 (by norm_num)).2.1⟩

/-- C7: with `maxRetries = 0`, `retryWithBackoff` invokes the action exactly
once, computes and awaits no backoff delay, and either returns the action's
result on success or rejects with the action's error on failure. -/
theorem retryWithBackoff_zero_retries {β ε : Type} (action : Nat → Outcome β ε)
    (rand : Nat → ℚ) (o : RetryOptions) (h : o.maxRetries = 0) :
    (retryWithBackoff action rand o).invocations = 1 ∧
    (retryWithBackoff action rand o).delays = [] ∧
    (∀ b, action 0 = Outcome.ok b →
      (retryWithBackoff action rand o).result = RetryResult.success b) ∧
    (∀ e, action 0 = Outcome.err e →
      (retryWithBackoff action rand o).result = RetryResult.failure e) := by
  have hfuel : (o.maxRetries + 1).toNat = 1 := by rw [h]; rfl
  unfold retryWithBackoff
  rw [hfuel]
  rcases ha : action 0 with b | e <;> simp [retryGo, ha, h]

/-- Witness for C7: `maxRetries = 0` and an action succeeding with `7`. -/
theorem retryWithBackoff_zero_retries_witness :
    (retryWithBackoff (fun _ => (Outcome.ok 7 : Outcome Nat Nat)) (fun _ => 0)
        ⟨0, 100, 10000, 3 / 10⟩).invocations = 1 ∧
    (retryWithBackoff (fun _ => (Outcome.ok 7 : Outcome Nat Nat)) (fun _ => 0)
        ⟨0, 100, 10000, 3 / 10⟩).result = RetryResult.success 7 :=
  ⟨(retryWithBackoff_zero_retries _ _ _ rfl).1,
   (retryWithBackoff_zero_retries _ _ _ rfl).2.2.1 7 rfl⟩

/-- C8: for the plain `debounce(ms)` trigger, over any burst of `N ≥ 1` calls
each made strictly less than `ms` after the previous, exactly one of the `N`
supplied callbacks executes — the one supplied by the last call — it executes
exactly once, and it executes `ms` time units after that last call. -/
theorem debounce_last_call_wins {γ : Type} (ms : Nat) (cs : List (Nat × γ))
    (t : Nat) (f : γ) (hb : BurstCalls ms (cs ++ [(t, f)])) :
    (debRun ms (cs ++ [(t, f)])).executed = [(t + ms, f)] := by
  unfold debRun
  rw [debSteps_burst ms cs t f hb]
  simp [midDeb, debFire]

/-- Witness for C8: `ms = 50`, calls at 0, 10, 20 with callbacks 1, 2, 3;
only callback 3 runs, at time 70. -/
theorem debounce_last_call_wins_witness :
    (debRun 50 ([(0, 1), (10, 2)] ++ [(20, 3)])).executed = [(20 + 50, (3 : Nat))] := by
  have hb : BurstCalls 50 ([((0 : Nat), (1 : Nat)), (10, 2)] ++ [(20, 3)]) := by
    norm_num [BurstCalls, List.chain'_cons]
  exact debounce_last_call_wins 50 [(0, 1), (10, 2)] 20 3 hb

/-- C9: at most one scheduled timer exists per debouncer instance at any
time, for both `debounce` and `debounce2`: every call first cancels the
previously scheduled timer (if any) before scheduling a new one, so after any
prefix of any call sequence the instance's pending-timer queue holds at most
one timer. -/
theorem debouncer_at_most_one_timer {γ α β ε : Type} (ms : Nat)
    (action : α → Outcome β ε) :
    (∀ (calls : List (Nat × γ)) (n : Nat),
      (debSteps ms (DebState.init γ) (calls.take n)).timers.length ≤ 1) ∧
    (∀ (calls : List (Nat × α)) (n : Nat),
      (d2Steps action ms (D2State.init α β) (calls.take n)).timers.length ≤ 1) := by
  constructor
  · intro calls n
    rcases debSteps_oneTimer ms (calls.take n) (DebState.init γ) (Or.inl rfl) with
      h | ⟨tm, htm, _⟩
    · rw [h]; simp
    · rw [htm]; simp
  · intro calls n
    rcases d2Steps_oneTimer action ms (calls.take n) (D2State.init α β) (Or.inl rfl) with
      h | ⟨tm, htm, _⟩
    · rw [h]; simp
    · rw [htm]; simp

/-- C10: with `maxRetries < 0` the retry loop body never runs — the action is
never invoked, no delay is awaited, and the call fails with the post-loop
fallback error ("Retry failed without capturing an error."); with
`maxRetries ≥ 0` that fallback is unreachable — every run either returns a
result or throws the final attempt's error. -/
theorem retryWithBackoff_fallback_guard {β ε : Type} (action : Nat → Outcome β ε)
    (rand : Nat → ℚ) (o : RetryOptions) :
    (o.maxRetries < 0 →
      retryWithBackoff action rand o = ⟨RetryResult.fallback, 0, []⟩) ∧
    (0 ≤ o.maxRetries →
      (retryWithBackoff action rand o).result ≠ RetryResult.fallback) := by
  constructor
  · intro h
    have hfuel : (o.maxRetries + 1).toNat = 0 := by omega
    unfold retryWithBackoff
    rw [hfuel]
    rfl
  · intro h
    have h1 : ((0 : Nat) : Int) + (((o.maxRetries + 1).toNat : Nat) : Int)
        = o.maxRetries + 1 := by omega
    have h2 : 0 < (o.maxRetries + 1).toNat := by omega
    exact retryGo_ne_fallback action rand o (o.maxRetries + 1).toNat 0 none h1 h2

/-- Witness for C10: `maxRetries = -1` gives the fallback with zero
invocations; `maxRetries = 2` never gives the fallback. -/
theorem retryWithBackoff_fallback_guard_witness :
    retryWithBackoff (fun _ => (Outcome.err 0 : Outcome Nat Nat)) (fun _ => 0)
        ⟨-1, 100, 10000, 0⟩ = ⟨RetryResult.fallback, 0, []⟩ ∧
    (retryWithBackoff (fun _ => (Outcome.err 0 : Outcome Nat Nat)) (fun _ => 0)
        ⟨2, 100, 10000, 0⟩).result ≠ RetryResult.fallback :=
  ⟨(retryWithBackoff_fallback_guard _ _ _).1 (by norm_num),
   (retryWithBackoff_fallback_guard _ _ _).2 (by norm_num)⟩

end JsUtils
